import Mathlib

/-!
# Verification of the hackathon recommendation engine

Shallow embedding of `recommendation_engine.py` from the
`hackathon_scrapper` repository.  Python strings are modelled as Lean
`String` (with helper functions mirroring Python's `str.lower`,
`str.strip`, `in` and `str.split()`), floats as exact rationals `ℚ`,
dict-shaped records as structures whose string fields default to `""`
(an empty string is falsy in Python exactly like a missing key read with
`.get(..., '')`, so "" uniformly models "missing or empty"), and the
fallible document store as `Option`-valued data the engine receives.

The scikit-learn `TfidfVectorizer`/`cosine_similarity` pipeline is an
external library, not repository code; it is modelled as an abstract
deterministic function `Engine.contentSimFn` of the two document texts
handed to `fit_transform` (the spec's §4.1 explicitly allows any
deterministic pairwise lexical-similarity measure here).  The mutable
vectorizer instance held on the engine object is modelled as an explicit
state `VecState` threaded through the computation: `fit_transform`
replaces any previous fitted state with one derived only from the fresh
two-document corpus.
-/

namespace HackathonRec

/-- Python `str.lower()` restricted to the character-wise mapping. -/
def lowerStr (s : String) : String := String.mk (s.data.map Char.toLower)

/-- Python `str.strip()`: drop leading and trailing whitespace. -/
def stripStr (s : String) : String :=
  String.mk (((s.data.dropWhile Char.isWhitespace).reverse.dropWhile
    Char.isWhitespace).reverse)

/-- `charsStartWith needle haystack` holds when `needle` is a leading
segment of `haystack`. -/
def charsStartWith : List Char → List Char → Bool
  | [], _ => true
  | _ :: _, [] => false
  | a :: as, b :: bs => a == b && charsStartWith as bs

/-- `charsContain needle haystack` holds when `needle` occurs as a
contiguous segment of `haystack` (the empty needle always occurs). -/
def charsContain (needle : List Char) : List Char → Bool
  | [] => needle.isEmpty
  | b :: bs => charsStartWith needle (b :: bs) || charsContain needle bs

/-- Python `needle in haystack` for strings: substring containment. -/
def containsStr (haystack needle : String) : Bool :=
  charsContain needle.data haystack.data

/-- Python `any(word in text for word in words)`. -/
def containsAnyStr (haystack : String) (needles : List String) : Bool :=
  needles.any (fun w => containsStr haystack w)

/-- Python `s.split()`: split on whitespace, discarding empty pieces. -/
def pySplitWS (s : String) : List String :=
  (s.split Char.isWhitespace).filter (fun w => w ≠ "")

/-- A hackathon document (`$id`, `title`, `organization`, `prize`,
`mode`, `location` fields read by the engine); `""` models a missing or
empty field, both falsy in Python. -/
structure Hackathon where
  id : String
  title : String
  organization : String
  prize : String
  mode : String
  location : String
deriving DecidableEq, Repr

/-- A user document: `skills`, `location`, `mode` (read by the content
blob), `mode_preference` and `prize_preference` (read by the ranker,
with their `.get` defaults already applied at the store boundary). -/
structure UserData where
  skills : List String
  location : String
  mode : String
  mode_preference : String
  prize_preference : String
deriving DecidableEq, Repr

/-- One scored entry of the ranking result (the dict built at lines
199–210 of `recommendation_engine.py`). -/
structure ScoredCandidate where
  hackathon : Hackathon
  score : ℚ
  skill_score : ℚ
  location_score : ℚ
  mode_score : ℚ
  prize_score : ℚ
  content_similarity : ℚ
  recommendation_reason : String
deriving DecidableEq, Repr

/-- The filter dict of `get_filtered_recommendations`; `""` models a
missing key or falsy value (either way `filters.get(k)` is falsy and
the corresponding filter is skipped). -/
structure Filters where
  mode : String
  location : String
  prize_range : String
deriving DecidableEq, Repr

/-- The state of the `TfidfVectorizer` instance held on the engine:
the corpus it was last fitted on (`[]` before any fit).  `fit_transform`
discards this and refits from its argument corpus alone. -/
abbrev VecState := List String

/-- The engine object.  `contentSimFn` abstracts the external
scikit-learn TF-IDF cosine pipeline as a fixed deterministic function
of the two lowercased document texts passed to `fit_transform`. -/
structure Engine where
  contentSimFn : String → String → ℚ

/-- `preprocess_skills` (list branch): `[s.strip().lower() for s in
skills if s]`. -/
def preprocess_skills (skills : List String) : List String :=
  (skills.filter (fun s => s ≠ "")).map (fun s => lowerStr (stripStr s))

/-- `extract_features_from_hackathon`: join title, organization, prize,
mode, location with single spaces and lowercase the result. -/
def extract_features_from_hackathon (h : Hackathon) : String :=
  lowerStr (h.title ++ " " ++ h.organization ++ " " ++ h.prize ++ " " ++
    h.mode ++ " " ++ h.location)

/-- The distinct preprocessed skills, `set(self.preprocess_skills(...))`
(order is irrelevant: only membership counts are used). -/
def skillSet (user_skills : List String) : List String :=
  (preprocess_skills user_skills).dedup

/-- `calculate_skill_similarity`: count how many distinct preprocessed
skills occur in the lowercased hackathon text and divide by the number
of distinct skills; `0.0` for an empty skill set. -/
def calculate_skill_similarity (user_skills : List String)
    (hackathon_text : String) : ℚ :=
  let user_skills_set := skillSet user_skills
  let text_lower := lowerStr hackathon_text
  if user_skills_set.isEmpty then 0
  else
    let skill_matches : ℕ := user_skills_set.foldl
      (fun acc sk => if containsStr text_lower sk then acc + 1 else acc) 0
    (skill_matches : ℚ) / user_skills_set.length

/-- `calculate_location_match`. -/
def calculate_location_match (user_location hackathon_location : String) :
    ℚ :=
  if user_location = "" ∨ hackathon_location = "" then 0.5
  else
    let u := stripStr (lowerStr user_location)
    let h := stripStr (lowerStr hackathon_location)
    if u = h then 1
    else if containsStr h "online" || containsStr h "virtual" then 0.9
    else if (pySplitWS u).any (fun w => containsStr h w) then 0.7
    else 0.3

/-- `calculate_mode_match`. -/
def calculate_mode_match (user_mode hackathon_mode : String) : ℚ :=
  if user_mode = "" ∨ hackathon_mode = "" then 0.5
  else
    let u := stripStr (lowerStr user_mode)
    let h := stripStr (lowerStr hackathon_mode)
    if u = h then 1
    else if u = "online" ∧ (h = "online" ∨ h = "virtual") then 1
    else if u = "offline" ∧ (h = "offline" ∨ h = "physical") then 1
    else 0.3

/-- The prize-tier keyword scan of `calculate_prize_match`
(lines 96–101), factored out so it can be compared with the filter of
`get_filtered_recommendations`; its argument is the already lowercased
prize text. -/
def deriveTier (hackathon_prize_lower : String) : String :=
  if containsAnyStr hackathon_prize_lower
      ["lakh", "crore", "₹1,00,000", "₹2,00,000"] then "high"
  else if containsAnyStr hackathon_prize_lower
      ["₹50000", "₹25000", "₹10000"] then "medium"
  else "low"

/-- `calculate_prize_match`. -/
def calculate_prize_match (user_prize_preference hackathon_prize : String) :
    ℚ :=
  if hackathon_prize = "" then 0.3
  else
    let prize_level := deriveTier (lowerStr hackathon_prize)
    if user_prize_preference = "" ∨ user_prize_preference = "any" then 0.7
    else if user_prize_preference = prize_level then 1
    else 0.5

/-- The user text blob of `calculate_content_similarity`:
`f"{' '.join(user_skills)} {user_location} {user_mode}".strip()`. -/
def userProfileText (u : UserData) : String :=
  stripStr (String.intercalate " " u.skills ++ " " ++ u.location ++ " " ++
    u.mode)

/-- `calculate_content_similarity`: returns `0.0` without touching the
vectorizer when either blob is empty; otherwise `fit_transform` refits
the vectorizer from the fresh two-document corpus alone and the cosine
similarity is a function of exactly those two documents. -/
def calculate_content_similarity (eng : Engine) (st : VecState)
    (u : UserData) (h : Hackathon) : ℚ × VecState :=
  let user_text := userProfileText u
  let hackathon_text := extract_features_from_hackathon h
  if user_text = "" ∨ hackathon_text = "" then (0, st)
  else
    let corpus := [lowerStr user_text, hackathon_text]
    (eng.contentSimFn (lowerStr user_text) hackathon_text, corpus)

/-- `get_recommendation_reason`: first-matching rule. -/
def get_recommendation_reason (skill_score content_similarity
    location_score mode_score : ℚ) : String :=
  if skill_score > 0.4 then "Matches your technical skills"
  else if content_similarity > 0.3 then "Similar to your interests and profile"
  else if location_score > 0.7 then "Perfect location match"
  else if mode_score > 0.8 then "Matches your preferred mode"
  else "Recommended for you"

/-- The per-candidate body of the scoring loop (lines 170–210): the five
component scores, the weighted final score and the reason, together with
the vectorizer state left behind by `fit_transform`. -/
def scoreHackathon (eng : Engine) (user : UserData) (st : VecState)
    (h : Hackathon) : ScoredCandidate × VecState :=
  let skill_score := calculate_skill_similarity user.skills
    (extract_features_from_hackathon h)
  let location_score := calculate_location_match user.location h.location
  let mode_score := calculate_mode_match user.mode_preference h.mode
  let prize_score := calculate_prize_match user.prize_preference h.prize
  let cs := calculate_content_similarity eng st user h
  let content_similarity := cs.1
  let final_score := skill_score * 0.3 + content_similarity * 0.25 +
    location_score * 0.2 + mode_score * 0.15 + prize_score * 0.1
  ({ hackathon := h
     score := final_score
     skill_score := skill_score
     location_score := location_score
     mode_score := mode_score
     prize_score := prize_score
     content_similarity := content_similarity
     recommendation_reason := get_recommendation_reason skill_score
       content_similarity location_score mode_score }, cs.2)

/-- The scoring loop over the fetched documents (lines 165–210):
candidates with falsy `$id` or `title` are skipped before scoring, the
vectorizer state is threaded left to right. -/
def scoreAll (eng : Engine) (user : UserData) :
    List Hackathon → VecState → List ScoredCandidate × VecState
  | [], st => ([], st)
  | h :: hs, st =>
    if h.id = "" ∨ h.title = "" then scoreAll eng user hs st
    else
      let c := scoreHackathon eng user st h
      let rest := scoreAll eng user hs c.2
      (c.1 :: rest.1, rest.2)

/-- The comparison used by `hackathon_scores.sort(key=..., reverse=True)`:
`a` may come before `b` when `b.score ≤ a.score`. -/
def scoreRel (a b : ScoredCandidate) : Prop := b.score ≤ a.score

instance : DecidableRel scoreRel :=
  fun a b => inferInstanceAs (Decidable (b.score ≤ a.score))

/-- Python's `list.sort(key=lambda x: x['score'], reverse=True)` is a
stable descending sort; any stable sort computes the same list, modelled
here by insertion sort with `scoreRel` (which keeps earlier elements
before later equal-score ones). -/
def sortByScoreDesc (l : List ScoredCandidate) : List ScoredCandidate :=
  List.insertionSort scoreRel l

/-- `get_recommendations`, with the store interactions made explicit:
`user?` is the result of `client.get_user(user_id)` (`none` = falsy) and
`resp` the `documents` of `client.get_hackathons(limit=500)` (`none` = a
falsy response).  Returns the result list and the final vectorizer
state. -/
def get_recommendations_st (eng : Engine) (st : VecState)
    (user? : Option UserData) (resp : Option (List Hackathon)) (n : ℕ) :
    List ScoredCandidate × VecState :=
  match user? with
  | none => ([], st)
  | some user =>
    match resp with
    | none => ([], st)
    | some docs =>
      if docs.isEmpty then ([], st)
      else
        let scored := scoreAll eng user docs st
        ((sortByScoreDesc scored.1).take n, scored.2)

/-- `get_recommendations` as observed by callers (fresh engine state). -/
def get_recommendations (eng : Engine) (user? : Option UserData)
    (resp : Option (List Hackathon)) (n : ℕ) : List ScoredCandidate :=
  (get_recommendations_st eng [] user? resp n).1

/-- The `prize_range` branch of the filter loop (lines 248–257),
operating on the lowercased prize text; an unrecognised non-empty tier
value falls through every branch and passes. -/
def prizeRangePasses (prize_range hackathon_prize_lower : String) : Bool :=
  if prize_range = "high" then
    containsAnyStr hackathon_prize_lower ["lakh", "crore", "₹1,00,000"]
  else if prize_range = "medium" then
    containsAnyStr hackathon_prize_lower ["₹10000", "₹25000", "₹50000"]
  else if prize_range = "low" then
    containsAnyStr hackathon_prize_lower ["₹1000", "₹5000"]
  else true

/-- The three `continue` guards of the filter loop (lines 244–257): a
candidate survives when no guard fires. -/
def passesFilters (f : Filters) (h : Hackathon) : Bool :=
  (f.mode == "" || h.mode == f.mode) &&
  (f.location == "" ||
    containsStr (lowerStr h.location) (lowerStr f.location)) &&
  (f.prize_range == "" || prizeRangePasses f.prize_range (lowerStr h.prize))

/-- The filter loop of `get_filtered_recommendations` (lines 239–262):
append survivors in order, breaking as soon as the accumulated length
`k + 1` reaches `n`. -/
def collectFiltered (f : Filters) :
    List ScoredCandidate → ℕ → ℕ → List ScoredCandidate
  | [], _, _ => []
  | r :: rs, n, k =>
    if passesFilters f r.hackathon then
      if n ≤ k + 1 then [r]
      else r :: collectFiltered f rs n (k + 1)
    else collectFiltered f rs n k

/-- `get_filtered_recommendations`: fetch `n * 2` ranked candidates,
then either return the first `n` (when `filters` is `None` or the empty
dict, both falsy) or run the filter loop. -/
def get_filtered_recommendations (eng : Engine) (user? : Option UserData)
    (resp : Option (List Hackathon)) (filters : Option Filters) (n : ℕ) :
    List ScoredCandidate :=
  let recommendations := get_recommendations eng user? resp (n * 2)
  match filters with
  | none => recommendations.take n
  | some f => collectFiltered f recommendations n 0

/-! Concrete fixtures used to evaluate the engine on closed inputs. -/

/-- A concrete engine whose content-similarity collaborator returns 0. -/
def wEng : Engine := ⟨fun _ _ => 0⟩

/-- A concrete user: one skill, online mode preference, any prize. -/
def wUser : UserData :=
  { skills := ["Python"], location := "", mode := "",
    mode_preference := "online", prize_preference := "any" }

/-- A concrete well-formed online hackathon matching `wUser`'s skill. -/
def wHackA : Hackathon :=
  { id := "a", title := "Python Web Hackathon", organization := "",
    prize := "₹10000", mode := "online", location := "" }

/-- A concrete well-formed offline hackathon matching nothing. -/
def wHackB : Hackathon :=
  { id := "b", title := "Art Contest", organization := "",
    prize := "", mode := "offline", location := "" }

/-- A concrete hackathon whose prize text carries no rupee keyword, so
its derived prize tier is "low". -/
def wHackGoodies : Hackathon :=
  { id := "g", title := "Fun Hack", organization := "",
    prize := "Goodies", mode := "online", location := "" }

/-- The scored candidate the engine produces for `wUser` and `wHackA`
(skill 1, location 1/2, mode 1, prize 7/10, content 0). -/
def wCandA : ScoredCandidate :=
  { hackathon := wHackA, score := 31/50, skill_score := 1,
    location_score := 1/2, mode_score := 1, prize_score := 7/10,
    content_similarity := 0,
    recommendation_reason := "Matches your technical skills" }

/-- The scored candidate the engine produces for `wUser` and `wHackB`
(skill 0, location 1/2, mode 3/10, prize 3/10, content 0). -/
def wCandB : ScoredCandidate :=
  { hackathon := wHackB, score := 7/40, skill_score := 0,
    location_score := 1/2, mode_score := 3/10, prize_score := 3/10,
    content_similarity := 0,
    recommendation_reason := "Recommended for you" }

instance : IsTotal ScoredCandidate scoreRel :=
  ⟨fun a b => le_total b.score a.score⟩

instance : IsTrans ScoredCandidate scoreRel :=
  ⟨fun _ _ _ h1 h2 => le_trans h2 h1⟩

/-! ## Helper lemmas -/

/-- The similarity value returned by `calculate_content_similarity` does
not depend on the incoming vectorizer state: `fit_transform` refits from
the fresh two-document corpus alone. -/
theorem content_similarity_state_free (eng : Engine) (st1 st2 : VecState)
    (u : UserData) (h : Hackathon) :
    (calculate_content_similarity eng st1 u h).1 =
      (calculate_content_similarity eng st2 u h).1 := by
  dsimp only [calculate_content_similarity]
  split <;> rfl

/-- The scored candidate built for one hackathon does not depend on the
incoming vectorizer state. -/
theorem scoreHackathon_state_free (eng : Engine) (user : UserData)
    (st1 st2 : VecState) (h : Hackathon) :
    (scoreHackathon eng user st1 h).1 = (scoreHackathon eng user st2 h).1 := by
  dsimp only [scoreHackathon]
  rw [content_similarity_state_free eng st1 st2 user h]

/-- The scored list built by the scoring loop does not depend on the
initial vectorizer state. -/
theorem scoreAll_state_free (eng : Engine) (user : UserData) :
    ∀ (hs : List Hackathon) (st1 st2 : VecState),
      (scoreAll eng user hs st1).1 = (scoreAll eng user hs st2).1 := by
  intro hs
  induction hs with
  | nil => intro st1 st2; rfl
  | cons h t ih =>
    intro st1 st2
    unfold scoreAll
    by_cases hbad : h.id = "" ∨ h.title = ""
    · rw [if_pos hbad, if_pos hbad]; exact ih st1 st2
    · rw [if_neg hbad, if_neg hbad]
      simp only
      rw [scoreHackathon_state_free eng user st1 st2 h,
        ih (scoreHackathon eng user st1 h).2 (scoreHackathon eng user st2 h).2]

/-- Every element of the scored list comes from scoring some fetched
document that survived the identifier/title guard. -/
theorem mem_scoreAll (eng : Engine) (user : UserData) :
    ∀ (hs : List Hackathon) (st : VecState) (c : ScoredCandidate),
      c ∈ (scoreAll eng user hs st).1 →
      ∃ h st2, h ∈ hs ∧ h.id ≠ "" ∧ h.title ≠ "" ∧
        c = (scoreHackathon eng user st2 h).1 := by
  intro hs
  induction hs with
  | nil => intro st c hc; simp [scoreAll] at hc
  | cons h t ih =>
    intro st c hc
    unfold scoreAll at hc
    by_cases hbad : h.id = "" ∨ h.title = ""
    · rw [if_pos hbad] at hc
      obtain ⟨g, st2, hg, hid, hti, hceq⟩ := ih st c hc
      exact ⟨g, st2, List.mem_cons_of_mem h hg, hid, hti, hceq⟩
    · rw [if_neg hbad] at hc
      push_neg at hbad
      rcases List.mem_cons.mp hc with hhead | htail
      · exact ⟨h, st, List.mem_cons_self h t, hbad.1, hbad.2, hhead⟩
      · obtain ⟨g, st2, hg, hid, hti, hceq⟩ :=
          ih (scoreHackathon eng user st h).2 c htail
        exact ⟨g, st2, List.mem_cons_of_mem h hg, hid, hti, hceq⟩

/-- The stored composite score of a scored candidate is the weighted sum
of its stored component scores. -/
theorem scoreHackathon_score_eq (eng : Engine) (user : UserData)
    (st : VecState) (h : Hackathon) :
    (scoreHackathon eng user st h).1.score =
      0.30 * (scoreHackathon eng user st h).1.skill_score +
      0.25 * (scoreHackathon eng user st h).1.content_similarity +
      0.20 * (scoreHackathon eng user st h).1.location_score +
      0.15 * (scoreHackathon eng user st h).1.mode_score +
      0.10 * (scoreHackathon eng user st h).1.prize_score := by
  dsimp only [scoreHackathon]
  ring

/-- The hackathon stored in a scored candidate is the scored document. -/
theorem scoreHackathon_hackathon_eq (eng : Engine) (user : UserData)
    (st : VecState) (h : Hackathon) :
    (scoreHackathon eng user st h).1.hackathon = h := rfl

/-- Every element of a `get_recommendations` result is the scoring of
some fetched document with non-empty identifier and title. -/
theorem mem_rank (eng : Engine) (user? : Option UserData)
    (resp : Option (List Hackathon)) (n : ℕ) (c : ScoredCandidate)
    (hc : c ∈ get_recommendations eng user? resp n) :
    ∃ user docs h st2, user? = some user ∧ resp = some docs ∧ h ∈ docs ∧
      h.id ≠ "" ∧ h.title ≠ "" ∧ c = (scoreHackathon eng user st2 h).1 := by
  match user?, resp with
  | none, _ => simp [get_recommendations, get_recommendations_st] at hc
  | some user, none =>
      simp [get_recommendations, get_recommendations_st] at hc
  | some user, some docs =>
      unfold get_recommendations get_recommendations_st at hc
      dsimp only at hc
      by_cases hemp : docs.isEmpty
      · rw [if_pos hemp] at hc; simp at hc
      · rw [if_neg hemp] at hc
        have hmem : c ∈ sortByScoreDesc (scoreAll eng user docs []).1 :=
          List.mem_of_mem_take hc
        have hmem2 : c ∈ (scoreAll eng user docs []).1 := by
          unfold sortByScoreDesc at hmem
          exact (List.perm_insertionSort scoreRel _).mem_iff.mp hmem
        obtain ⟨h, st2, hg, hid, hti, hceq⟩ :=
          mem_scoreAll eng user docs [] c hmem2
        exact ⟨user, docs, h, st2, rfl, rfl, hg, hid, hti, hceq⟩

/-- The filter loop returns a sublist (order-preserving selection) of
its input. -/
theorem collectFiltered_sublist (f : Filters) :
    ∀ (l : List ScoredCandidate) (n k : ℕ),
      List.Sublist (collectFiltered f l n k) l := by
  intro l
  induction l with
  | nil => intro n k; simp [collectFiltered]
  | cons r rs ih =>
    intro n k
    unfold collectFiltered
    by_cases hp : passesFilters f r.hackathon
    · rw [if_pos hp]
      by_cases hn : n ≤ k + 1
      · rw [if_pos hn]
        exact (List.nil_sublist rs).cons₂ r
      · rw [if_neg hn]
        exact (ih n (k + 1)).cons₂ r
    · rw [if_neg hp]
      exact (ih n k).cons r

/-- The filter loop collects at most `n - k` further survivors when `k`
have already been accumulated. -/
theorem collectFiltered_length (f : Filters) :
    ∀ (l : List ScoredCandidate) (n k : ℕ), k < n →
      (collectFiltered f l n k).length ≤ n - k := by
  intro l
  induction l with
  | nil => intro n k _; simp [collectFiltered]
  | cons r rs ih =>
    intro n k hk
    unfold collectFiltered
    by_cases hp : passesFilters f r.hackathon
    · rw [if_pos hp]
      by_cases hn : n ≤ k + 1
      · rw [if_pos hn]
        simp only [List.length_singleton]
        omega
      · rw [if_neg hn]
        have := ih n (k + 1) (by omega)
        simp only [List.length_cons]
        omega
    · rw [if_neg hp]
      exact ih n k hk

/-- Every element collected by the filter loop satisfies the filter
predicate. -/
theorem collectFiltered_passes (f : Filters) :
    ∀ (l : List ScoredCandidate) (n k : ℕ) (c : ScoredCandidate),
      c ∈ collectFiltered f l n k → passesFilters f c.hackathon = true := by
  intro l
  induction l with
  | nil => intro n k c hc; simp [collectFiltered] at hc
  | cons r rs ih =>
    intro n k c hc
    unfold collectFiltered at hc
    by_cases hp : passesFilters f r.hackathon
    · rw [if_pos hp] at hc
      by_cases hn : n ≤ k + 1
      · rw [if_pos hn] at hc
        rw [List.mem_singleton.mp hc]
        exact hp
      · rw [if_neg hn] at hc
        rcases List.mem_cons.mp hc with hhead | htail
        · rw [hhead]; exact hp
        · exact ih n (k + 1) c htail
    · rw [if_neg hp] at hc
      exact ih n k c hc


/-- C5: `get_recommendations` returns the empty list, not an error, when
the store resolves no user (`get_user` falsy), when the hackathon fetch
response is falsy, and when the fetched document list is empty. -/
theorem rank_empty_on_missing_user_or_empty_store :
    (∀ (eng : Engine) (resp : Option (List Hackathon)) (n : ℕ),
        get_recommendations eng none resp n = []) ∧
    (∀ (eng : Engine) (user? : Option UserData) (n : ℕ),
        get_recommendations eng user? none n = []) ∧
    (∀ (eng : Engine) (user : UserData) (n : ℕ),
        get_recommendations eng (some user) (some []) n = []) := by
  refine ⟨fun eng resp n => rfl, fun eng user? n => ?_, fun eng user n => rfl⟩
  cases user? <;> rfl

/-- C9: with an absent (or empty, hence falsy) filter dict,
`get_filtered_recommendations` returns exactly `get_recommendations` for
the same user, store contents and count: the first `count` entries of
the internal `count * 2` ranking coincide with the `count` ranking. -/
theorem filtered_rank_no_filters_eq_rank (eng : Engine)
    (user? : Option UserData) (resp : Option (List Hackathon)) (n : ℕ) :
    get_filtered_recommendations eng user? resp none n =
      get_recommendations eng user? resp n := by
  unfold get_filtered_recommendations
  dsimp only
  match user?, resp with
  | none, _ => simp [get_recommendations, get_recommendations_st]
  | some user, none => simp [get_recommendations, get_recommendations_st]
  | some user, some docs =>
    unfold get_recommendations get_recommendations_st
    dsimp only
    by_cases hemp : docs.isEmpty
    · rw [if_pos hemp, if_pos hemp]; simp
    · rw [if_neg hemp, if_neg hemp]
      dsimp only
      rw [List.take_take]
      congr 1
      omega

/-- C10: `get_recommendations` is deterministic: the returned list does
not depend on the vectorizer state left behind by earlier calls (the
per-call refit makes the content score a function of the two documents
alone), and the model contains no other call-to-call state or
randomness. -/
theorem rank_deterministic (eng : Engine) (st1 st2 : VecState)
    (user? : Option UserData) (resp : Option (List Hackathon)) (n : ℕ) :
    (get_recommendations_st eng st1 user? resp n).1 =
      (get_recommendations_st eng st2 user? resp n).1 := by
  match user?, resp with
  | none, _ => rfl
  | some user, none => rfl
  | some user, some docs =>
    unfold get_recommendations_st
    dsimp only
    by_cases hemp : docs.isEmpty
    · rw [if_pos hemp, if_pos hemp]
    · rw [if_neg hemp, if_neg hemp]
      dsimp only
      rw [scoreAll_state_free eng user docs st1 st2]

/-- C1: every candidate scored by `get_recommendations` has composite
score `0.30*skill + 0.25*content + 0.20*location + 0.15*mode +
0.10*prize`; the weights sum to exactly 1; and whenever all five stored
component scores lie in `[0,1]`, the composite score lies in `[0,1]`. -/
theorem composite_score_weighted_sum (eng : Engine) (user? : Option UserData)
    (resp : Option (List Hackathon)) (n : ℕ) (c : ScoredCandidate)
    (hc : c ∈ get_recommendations eng user? resp n) :
    c.score = 0.30 * c.skill_score + 0.25 * c.content_similarity +
        0.20 * c.location_score + 0.15 * c.mode_score +
        0.10 * c.prize_score ∧
    (0.30 + 0.25 + 0.20 + 0.15 + 0.10 : ℚ) = 1 ∧
    (0 ≤ c.skill_score ∧ c.skill_score ≤ 1 →
      0 ≤ c.content_similarity ∧ c.content_similarity ≤ 1 →
      0 ≤ c.location_score ∧ c.location_score ≤ 1 →
      0 ≤ c.mode_score ∧ c.mode_score ≤ 1 →
      0 ≤ c.prize_score ∧ c.prize_score ≤ 1 →
      0 ≤ c.score ∧ c.score ≤ 1) := by
  obtain ⟨user, docs, h, st2, -, -, -, -, -, hceq⟩ :=
    mem_rank eng user? resp n c hc
  have hscore : c.score = 0.30 * c.skill_score +
      0.25 * c.content_similarity + 0.20 * c.location_score +
      0.15 * c.mode_score + 0.10 * c.prize_score := by
    rw [hceq]; exact scoreHackathon_score_eq eng user st2 h
  refine ⟨hscore, by norm_num, ?_⟩
  rintro ⟨h1, h2⟩ ⟨h3, h4⟩ ⟨h5, h6⟩ ⟨h7, h8⟩ ⟨h9, h10⟩
  rw [hscore]
  constructor <;> nlinarith

unseal Rat.add Rat.mul Rat.inv Rat.sub Rat.ofScientific in
/-- Witness for C1 at a concrete run: the candidate scored for `wUser`
and `wHackA` is in the returned list, its components are in range, and
the theorem yields that its composite score is in `[0,1]`. -/
theorem composite_score_weighted_sum_witness :
    (0 : ℚ) ≤ wCandA.score ∧ wCandA.score ≤ 1 :=
  (composite_score_weighted_sum wEng (some wUser) (some [wHackA, wHackB])
      5 wCandA (by decide)).2.2
    (by decide) (by decide) (by decide) (by decide) (by decide)

/-- C4: a listing with missing (empty/falsy) identifier or title is
excluded before scoring and never occurs in any list returned by
`get_recommendations` or `get_filtered_recommendations`. -/
theorem malformed_listing_never_returned (eng : Engine)
    (user? : Option UserData) (resp : Option (List Hackathon))
    (filters : Option Filters) (n : ℕ) :
    (∀ c ∈ get_recommendations eng user? resp n,
        c.hackathon.id ≠ "" ∧ c.hackathon.title ≠ "") ∧
    (∀ c ∈ get_filtered_recommendations eng user? resp filters n,
        c.hackathon.id ≠ "" ∧ c.hackathon.title ≠ "") := by
  have hrank : ∀ (m : ℕ) (c : ScoredCandidate),
      c ∈ get_recommendations eng user? resp m →
      c.hackathon.id ≠ "" ∧ c.hackathon.title ≠ "" := by
    intro m c hc
    obtain ⟨user, docs, h, st2, -, -, -, hid, hti, hceq⟩ :=
      mem_rank eng user? resp m c hc
    rw [hceq, scoreHackathon_hackathon_eq]
    exact ⟨hid, hti⟩
  refine ⟨fun c hc => hrank n c hc, fun c hc => ?_⟩
  unfold get_filtered_recommendations at hc
  dsimp only at hc
  match filters with
  | none => exact hrank (n * 2) c (List.mem_of_mem_take hc)
  | some f =>
    exact hrank (n * 2) c
      ((collectFiltered_sublist f (get_recommendations eng user? resp (n * 2))
        n 0).subset hc)

unseal Rat.add Rat.mul Rat.inv Rat.sub Rat.ofScientific in
/-- Witness for C4: the concrete returned candidate has non-empty
identifier and title. -/
theorem malformed_listing_never_returned_witness :
    wCandA.hackathon.id ≠ "" ∧ wCandA.hackathon.title ≠ "" :=
  (malformed_listing_never_returned wEng (some wUser)
      (some [wHackA, wHackB]) none 5).1 wCandA (by decide)

/-- Filtering on an exact score commutes with ordered insertion: every
element the insertion walks past has a strictly greater score, so it
cannot share a score with the inserted element. -/
theorem filter_orderedInsert (x : ScoredCandidate) (s : ℚ) :
    ∀ l : List ScoredCandidate,
      (List.orderedInsert scoreRel x l).filter
          (fun c => decide (c.score = s)) =
        (x :: l).filter (fun c => decide (c.score = s)) := by
  intro l
  induction l with
  | nil => rfl
  | cons y ys ih =>
    by_cases hxy : scoreRel x y
    · rw [List.orderedInsert, if_pos hxy]
    · rw [List.orderedInsert, if_neg hxy]
      have hlt : x.score < y.score := not_le.mp hxy
      by_cases hy : y.score = s
      · have hx : ¬ x.score = s := hy ▸ ne_of_lt hlt
        simp only [List.filter_cons, ih]
        simp [hx, hy]
      · simp only [List.filter_cons, ih]
        simp [hy]

/-- Stability of the descending sort: the sublist of candidates with any
fixed score is unchanged by sorting. -/
theorem filter_sortByScoreDesc (s : ℚ) :
    ∀ l : List ScoredCandidate,
      (sortByScoreDesc l).filter (fun c => decide (c.score = s)) =
        l.filter (fun c => decide (c.score = s)) := by
  intro l
  induction l with
  | nil => rfl
  | cons x xs ih =>
    show (List.orderedInsert scoreRel x
        (List.insertionSort scoreRel xs)).filter _ = _
    rw [filter_orderedInsert x s (List.insertionSort scoreRel xs)]
    simp only [List.filter_cons]
    rw [show (List.insertionSort scoreRel xs).filter
        (fun c => decide (c.score = s)) =
        xs.filter (fun c => decide (c.score = s)) from ih]

/-- `get_recommendations` with requested count 0 returns the empty
list. -/
theorem rank_zero (eng : Engine) (user? : Option UserData)
    (resp : Option (List Hackathon)) :
    get_recommendations eng user? resp 0 = [] := by
  match user?, resp with
  | none, _ => rfl
  | some user, none => rfl
  | some user, some docs =>
    unfold get_recommendations get_recommendations_st
    dsimp only
    by_cases hemp : docs.isEmpty
    · rw [if_pos hemp]
    · rw [if_neg hemp]
      simp

/-- C2: the ranking result has length at most the requested count, is
sorted non-increasingly by composite score, and is stable: for every
score value, the candidates holding that score form a sublist (in
particular, in the same relative order) of the scored candidate list in
original fetch order. -/
theorem rank_length_sorted_stable (eng : Engine) (user : UserData)
    (docs : List Hackathon) (n : ℕ) :
    (get_recommendations eng (some user) (some docs) n).length ≤ n ∧
    List.Sorted scoreRel
      (get_recommendations eng (some user) (some docs) n) ∧
    ∀ s : ℚ,
      List.Sublist
        ((get_recommendations eng (some user) (some docs) n).filter
          (fun c => decide (c.score = s)))
        ((scoreAll eng user docs []).1.filter
          (fun c => decide (c.score = s))) := by
  unfold get_recommendations get_recommendations_st
  dsimp only
  by_cases hemp : docs.isEmpty
  · rw [if_pos hemp]
    refine ⟨by simp, List.sorted_nil, fun s => ?_⟩
    exact List.nil_sublist _
  · rw [if_neg hemp]
    dsimp only
    refine ⟨List.length_take_le n _, ?_, fun s => ?_⟩
    · exact List.Pairwise.sublist (List.take_sublist n _)
        (List.sorted_insertionSort scoreRel _)
    · have hsub := (List.take_sublist n
        (sortByScoreDesc (scoreAll eng user docs []).1)).filter
        (fun c => decide (c.score = s))
      rw [filter_sortByScoreDesc s (scoreAll eng user docs []).1] at hsub
      exact hsub

/-- Counting a fold with a conditional increment equals `countP`. -/
theorem foldl_count_eq_countP {α : Type} (p : α → Bool) :
    ∀ (l : List α) (m : ℕ),
      l.foldl (fun acc a => if p a then acc + 1 else acc) m =
        m + l.countP p := by
  intro l
  induction l with
  | nil => intro m; simp
  | cons a t ih =>
    intro m
    rw [List.foldl_cons, List.countP_cons, ih]
    by_cases hp : p a
    · simp [hp]; omega
    · simp [hp]

/-- C6: the skill-match score is the fraction of the user's distinct
preprocessed (stripped, lowercased, non-empty) skills occurring as a
substring of the lowercased hackathon text; it is 1 when every such
skill occurs, and 0 when the distinct skill set is empty. -/
theorem skill_similarity_fraction (skills : List String) (text : String) :
    (skillSet skills = [] → calculate_skill_similarity skills text = 0) ∧
    (skillSet skills ≠ [] →
      calculate_skill_similarity skills text =
        ((skillSet skills).countP
            (fun sk => containsStr (lowerStr text) sk) : ℚ) /
          ((skillSet skills).length : ℚ)) ∧
    (skillSet skills ≠ [] →
      (∀ sk ∈ skillSet skills, containsStr (lowerStr text) sk = true) →
      calculate_skill_similarity skills text = 1) := by
  have hfrac : skillSet skills ≠ [] →
      calculate_skill_similarity skills text =
        ((skillSet skills).countP
            (fun sk => containsStr (lowerStr text) sk) : ℚ) /
          ((skillSet skills).length : ℚ) := by
    intro hne
    unfold calculate_skill_similarity
    dsimp only
    rw [if_neg (by simp [List.isEmpty_iff, hne]),
      foldl_count_eq_countP (fun sk => containsStr (lowerStr text) sk)
        (skillSet skills) 0]
    norm_num
  refine ⟨?_, hfrac, ?_⟩
  · intro hnil
    unfold calculate_skill_similarity
    dsimp only
    rw [if_pos (by simp [List.isEmpty_iff, hnil])]
  · intro hne hall
    rw [hfrac hne, List.countP_eq_length.mpr hall]
    have hlen : ((skillSet skills).length : ℚ) ≠ 0 := by
      have h0 := (List.length_pos.mpr hne).ne'
      exact_mod_cast h0
    exact div_self hlen

unseal Rat.add Rat.mul Rat.inv Rat.sub Rat.ofScientific in
/-- Witness for C6: both skills of a two-skill user occur in the text,
giving score 1; the empty skill list gives score 0. -/
theorem skill_similarity_fraction_witness :
    calculate_skill_similarity ["Python", "reacT"]
        "Python and React Fest" = 1 ∧
    calculate_skill_similarity [] "anything" = 0 :=
  ⟨(skill_similarity_fraction ["Python", "reacT"]
        "Python and React Fest").2.2 (by decide) (by decide),
   (skill_similarity_fraction [] "anything").1 (by decide)⟩

/-- C7: the prize-tier match returns 0.3 on empty prize text; otherwise
0.7 when the preference is empty or "any"; 1 when the preference equals
the tier derived from the prize text by keyword scan; and 0.5
otherwise. -/
theorem prize_match_cases (pref prize : String) :
    (prize = "" → calculate_prize_match pref prize = 0.3) ∧
    (prize ≠ "" → (pref = "" ∨ pref = "any") →
      calculate_prize_match pref prize = 0.7) ∧
    (prize ≠ "" → ¬(pref = "" ∨ pref = "any") →
      pref = deriveTier (lowerStr prize) →
      calculate_prize_match pref prize = 1) ∧
    (prize ≠ "" → ¬(pref = "" ∨ pref = "any") →
      pref ≠ deriveTier (lowerStr prize) →
      calculate_prize_match pref prize = 0.5) := by
  unfold calculate_prize_match
  dsimp only
  refine ⟨fun hpz => ?_, fun hpz hpref => ?_, fun hpz hpref heq => ?_,
    fun hpz hpref hne => ?_⟩
  · rw [if_pos hpz]
  · rw [if_neg hpz, if_pos hpref]
  · rw [if_neg hpz, if_neg hpref, if_pos heq]
  · rw [if_neg hpz, if_neg hpref, if_neg hne]

/-- Witness for C7: prize text "Win 2 Lakh" derives tier "high"; the
four branches are exercised at concrete inputs. -/
theorem prize_match_cases_witness :
    calculate_prize_match "high" "Win 2 Lakh" = 1 ∧
    calculate_prize_match "low" "Win 2 Lakh" = 0.5 ∧
    calculate_prize_match "any" "Win 2 Lakh" = 0.7 ∧
    calculate_prize_match "high" "" = 0.3 :=
  ⟨(prize_match_cases "high" "Win 2 Lakh").2.2.1 (by decide) (by decide)
      (by decide),
   (prize_match_cases "low" "Win 2 Lakh").2.2.2 (by decide) (by decide)
      (by decide),
   (prize_match_cases "any" "Win 2 Lakh").2.1 (by decide) (by decide),
   (prize_match_cases "high" "").1 (by decide)⟩

unseal Rat.add Rat.mul Rat.inv Rat.sub Rat.ofScientific in
/-- C3 counterexample: the prize text "Goodies" is assigned tier "low"
by the §4.1 keyword derivation, yet fails the `prize_range = "low"`
filter of `get_filtered_recommendations` (which demands a "₹1000" or
"₹5000" keyword); the candidate is returned without filters but dropped
by the low-tier filter, so the filter is not the §4.1 derivation. -/
theorem prize_filter_tier_mismatch_cex :
    deriveTier (lowerStr "Goodies") = "low" ∧
    prizeRangePasses "low" (lowerStr "Goodies") = false ∧
    get_filtered_recommendations wEng (some wUser) (some [wHackGoodies])
      (some { mode := "", location := "", prize_range := "low" }) 5 = [] ∧
    get_filtered_recommendations wEng (some wUser) (some [wHackGoodies])
      none 5 ≠ [] := by
  refine ⟨by decide, by decide, by decide, by decide⟩

/-- C3 amended: the prize-tier filter uses its own keyword lists rather
than the §4.1 derivation.  "high" passes exactly on the keywords
{"lakh", "crore", "₹1,00,000"} — sound for the §4.1 tier (every "high"
survivor derives tier "high") but incomplete ("₹2,00,000" is missing);
"medium" passes exactly on {"₹10000", "₹25000", "₹50000"}; "low" passes
exactly on {"₹1000", "₹5000"} instead of the derivation's default
bucket. -/
theorem prize_filter_actual_keywords (s : String) :
    (prizeRangePasses "high" s = true → deriveTier s = "high") ∧
    prizeRangePasses "high" s =
      containsAnyStr s ["lakh", "crore", "₹1,00,000"] ∧
    prizeRangePasses "medium" s =
      containsAnyStr s ["₹10000", "₹25000", "₹50000"] ∧
    prizeRangePasses "low" s = containsAnyStr s ["₹1000", "₹5000"] := by
  refine ⟨?_, rfl, rfl, rfl⟩
  intro hpass
  unfold prizeRangePasses at hpass
  rw [if_pos rfl] at hpass
  have hsup : containsAnyStr s
      ["lakh", "crore", "₹1,00,000", "₹2,00,000"] = true := by
    simp only [containsAnyStr, List.any_eq_true] at hpass ⊢
    obtain ⟨w, hw, hcw⟩ := hpass
    refine ⟨w, ?_, hcw⟩
    simp only [List.mem_cons] at hw ⊢
    tauto
  unfold deriveTier
  rw [if_pos hsup]

/-- Witness for the C3 amended theorem: a text containing "crore" passes
the "high" filter, and the theorem yields that its derived tier is
"high". -/
theorem prize_filter_actual_keywords_witness :
    deriveTier "win a crore" = "high" :=
  (prize_filter_actual_keywords "win a crore").1 (by decide)

/-- C8: `get_filtered_recommendations` with a filter dict selects, in
order, from the internal `get_recommendations` call with count `n * 2`
(a sublist — if fewer than `n` survive, the partial list is returned
without padding or error); it stops at `n` survivors (length ≤ n); and
with a non-empty mode filter every returned candidate's stored mode
equals the filter value exactly. -/
theorem filtered_rank_mode_filter (eng : Engine) (user? : Option UserData)
    (resp : Option (List Hackathon)) (f : Filters) (n : ℕ) :
    List.Sublist (get_filtered_recommendations eng user? resp (some f) n)
      (get_recommendations eng user? resp (n * 2)) ∧
    (get_filtered_recommendations eng user? resp (some f) n).length ≤ n ∧
    (f.mode ≠ "" →
      ∀ c ∈ get_filtered_recommendations eng user? resp (some f) n,
        c.hackathon.mode = f.mode) := by
  have hunf : get_filtered_recommendations eng user? resp (some f) n =
      collectFiltered f (get_recommendations eng user? resp (n * 2)) n 0 :=
    rfl
  refine ⟨?_, ?_, ?_⟩
  · rw [hunf]
    exact collectFiltered_sublist f _ n 0
  · rw [hunf]
    rcases Nat.eq_zero_or_pos n with hn | hn
    · subst hn
      rw [show (0 * 2 : ℕ) = 0 from rfl, rank_zero eng user? resp]
      simp [collectFiltered]
    · have hb := collectFiltered_length f
        (get_recommendations eng user? resp (n * 2)) n 0 hn
      omega
  · intro hmode c hc
    rw [hunf] at hc
    have hp := collectFiltered_passes f _ n 0 c hc
    unfold passesFilters at hp
    simp only [Bool.and_eq_true, Bool.or_eq_true, beq_iff_eq] at hp
    rcases hp.1.1 with hfm | hcm
    · exact absurd hfm hmode
    · exact hcm

unseal Rat.add Rat.mul Rat.inv Rat.sub Rat.ofScientific in
/-- Witness for C8: with mode filter "online" the returned candidate's
stored mode is exactly "online". -/
theorem filtered_rank_mode_filter_witness :
    wCandA.hackathon.mode = "online" :=
  (filtered_rank_mode_filter wEng (some wUser) (some [wHackA, wHackB])
      { mode := "online", location := "", prize_range := "" } 5).2.2
    (by decide) wCandA (by decide)

end HackathonRec
